import Mathlib

/-!
# thash: adaptive file-to-digest pipeline

A shallow embedding of `thash.c`: the program opens one file, rejects it when
its size is zero, hashes it either through one memory mapping (sizes above
10 MiB) or through a loop of buffered reads, and prints the SHA-256 digest in
lowercase hex.

The operating system is an explicit `World` value that fixes the outcome of
every system call; a run of `main` returns the exit status, what was written to
the two output streams, and the ordered list of calls it made, or nothing when
the process is killed before `main` returns.  The digest
engine (OpenSSL EVP, an external library) is modelled as the streaming SHA-256
of FIPS 180-4.
-/

namespace Thash

/-! ## Bytes and 32-bit words -/

/-- An `unsigned char`. -/
abbrev Byte := Fin 256

/-- All 32 bits set. -/
def mask32 : Nat := 4294967295

/-- Addition modulo 2^32. -/
def add32 (x y : Nat) : Nat := (x + y) % 4294967296

/-- Rotate a 32-bit word right by `n` bits. -/
def rotr (n x : Nat) : Nat := ((x >>> n) ||| (x <<< (32 - n))) % 4294967296

def Ch (x y z : Nat) : Nat := (x &&& y) ^^^ ((mask32 ^^^ x) &&& z)

def Maj (x y z : Nat) : Nat := (x &&& y) ^^^ (x &&& z) ^^^ (y &&& z)

def bigSigma0 (x : Nat) : Nat := rotr 2 x ^^^ rotr 13 x ^^^ rotr 22 x

def bigSigma1 (x : Nat) : Nat := rotr 6 x ^^^ rotr 11 x ^^^ rotr 25 x

def smallSigma0 (x : Nat) : Nat := rotr 7 x ^^^ rotr 18 x ^^^ (x >>> 3)

def smallSigma1 (x : Nat) : Nat := rotr 17 x ^^^ rotr 19 x ^^^ (x >>> 10)

/-- The 64 round constants of SHA-256 (FIPS 180-4, section 4.2.2), in decimal,
four to a line: the first is 0x428a2f98 and the last 0xc67178f2. -/
def K256 : List Nat := [
  1116352408, 1899447441, 3049323471, 3921009573,
  961987163, 1508970993, 2453635748, 2870763221,
  3624381080, 310598401, 607225278, 1426881987,
  1925078388, 2162078206, 2614888103, 3248222580,
  3835390401, 4022224774, 264347078, 604807628,
  770255983, 1249150122, 1555081692, 1996064986,
  2554220882, 2821834349, 2952996808, 3210313671,
  3336571891, 3584528711, 113926993, 338241895,
  666307205, 773529912, 1294757372, 1396182291,
  1695183700, 1986661051, 2177026350, 2456956037,
  2730485921, 2820302411, 3259730800, 3345764771,
  3516065817, 3600352804, 4094571909, 275423344,
  430227734, 506948616, 659060556, 883997877,
  958139571, 1322822218, 1537002063, 1747873779,
  1955562222, 2024104815, 2227730452, 2361852424,
  2428436474, 2756734187, 3204031479, 3329325298]

/-- The eight working words of SHA-256. -/
structure Hash8 where
  a : Nat
  b : Nat
  c : Nat
  d : Nat
  e : Nat
  f : Nat
  g : Nat
  h : Nat
deriving DecidableEq, Repr

/-- The initial hash value of SHA-256 (FIPS 180-4, section 5.3.3), in decimal:
the first word is 0x6a09e667 and the last 0x5be0cd19. -/
def H0 : Hash8 :=
  ⟨1779033703, 3144134277, 1013904242, 2773480762,
   1359893119, 2600822924, 528734635, 1541459225⟩

/-- Big-endian 32-bit words of a byte string. -/
def wordsOfBytes : List Byte → List Nat
  | b0 :: b1 :: b2 :: b3 :: rest =>
      (b0.val * 16777216 + b1.val * 65536 + b2.val * 256 + b3.val) :: wordsOfBytes rest
  | _ => []

/-- The next `n` words of the message schedule; `win` holds the previous 16
words, oldest first. -/
def schedule : Nat → List Nat → List Nat
  | 0, _ => []
  | n + 1, win =>
      let w := add32 (add32 (smallSigma1 (win.getD 14 0)) (win.getD 9 0))
                 (add32 (smallSigma0 (win.getD 1 0)) (win.getD 0 0))
      w :: schedule n (win.drop 1 ++ [w])

/-- One of the 64 rounds, for the pair (round constant, schedule word). -/
def round (s : Hash8) (kw : Nat × Nat) : Hash8 :=
  let t1 := add32 (add32 (add32 s.h (bigSigma1 s.e)) (add32 (Ch s.e s.f s.g) kw.1)) kw.2
  let t2 := add32 (bigSigma0 s.a) (Maj s.a s.b s.c)
  ⟨add32 t1 t2, s.a, s.b, s.c, add32 s.d t1, s.e, s.f, s.g⟩

/-- Modelled from the spec: the SHA-256 compression function on one 64-byte
block (FIPS 180-4), which the external OpenSSL library provides and `thash.c`
reaches only through the EVP calls. -/
def compress (h : Hash8) (block : List Byte) : Hash8 :=
  let w16 := wordsOfBytes block
  let s := (K256.zip (w16 ++ schedule 48 w16)).foldl round h
  ⟨add32 h.a s.a, add32 h.b s.b, add32 h.c s.c, add32 h.d s.d,
   add32 h.e s.e, add32 h.f s.f, add32 h.g s.g, add32 h.h s.h⟩

/-- Modelled from the spec: the block routine of the external OpenSSL library:
compress the first `num` 64-byte blocks of `data` in order. -/
def sha256_block_data_order : Nat → Hash8 → List Byte → Hash8
  | 0, h, _ => h
  | num + 1, h, data => sha256_block_data_order num (compress h (data.take 64)) (data.drop 64)

/-- The four bytes of a 32-bit word, most significant first. -/
def bytesOfWord (w : Nat) : List Byte :=
  [Fin.ofNat (w >>> 24), Fin.ofNat (w >>> 16), Fin.ofNat (w >>> 8), Fin.ofNat w]

/-- The 64-bit big-endian length field of the padding. -/
def lengthBytes (bits : Nat) : List Byte :=
  [Fin.ofNat (bits >>> 56), Fin.ofNat (bits >>> 48), Fin.ofNat (bits >>> 40), Fin.ofNat (bits >>> 32),
   Fin.ofNat (bits >>> 24), Fin.ofNat (bits >>> 16), Fin.ofNat (bits >>> 8), Fin.ofNat bits]

/-- The padding appended to a message of `len` bytes of which `pending` are
not yet compressed: the byte 0x80, zero bytes up to 56 modulo 64, and the
message length in bits modulo 2^64. -/
def padding (pending len : Nat) : List Byte :=
  [(0x80 : Byte)] ++ List.replicate ((119 - pending % 64) % 64) (0 : Byte)
    ++ lengthBytes ((8 * len) % 18446744073709551616)

/-- The 32 digest bytes of a final hash value. -/
def digestBytes (h : Hash8) : List Byte :=
  bytesOfWord h.a ++ bytesOfWord h.b ++ bytesOfWord h.c ++ bytesOfWord h.d ++
  bytesOfWord h.e ++ bytesOfWord h.f ++ bytesOfWord h.g ++ bytesOfWord h.h

/-- Modelled from the spec: the standard cryptographic hash the spec names,
SHA-256 of a whole message as FIPS 180-4 defines it: pad the message, then
compress its 64-byte blocks in order starting from `H0`. -/
def sha256 (msg : List Byte) : List Byte :=
  let padded := msg ++ padding msg.length msg.length
  digestBytes (sha256_block_data_order (padded.length / 64) H0 padded)

/-! ## The digest engine -/

/-- Modelled from the spec: the digest context of the OpenSSL EVP engine, an
external library whose code is not part of `thash.c`.  It holds the chaining
value, the bytes submitted but not yet compressed, and the number of bytes
submitted so far. -/
structure EVP_MD_CTX where
  h : Hash8
  data : List Byte
  total : Nat
deriving DecidableEq, Repr

/-- Modelled from the spec: `EVP_DigestInit_ex(ctx, EVP_sha256(), NULL)` of the
external OpenSSL library: a fresh accumulator. -/
def EVP_DigestInit_ex : EVP_MD_CTX := ⟨H0, [], 0⟩

/-- Modelled from the spec: `EVP_DigestUpdate(ctx, data, len)` of the external
OpenSSL library: the chunk joins the pending bytes, every whole 64-byte block
is compressed, and the rest stays pending. -/
def EVP_DigestUpdate (ctx : EVP_MD_CTX) (chunk : List Byte) : EVP_MD_CTX :=
  let all := ctx.data ++ chunk
  let num := all.length / 64
  ⟨sha256_block_data_order num ctx.h all, all.drop (64 * num), ctx.total + chunk.length⟩

/-- Modelled from the spec: `EVP_DigestFinal_ex(ctx, hash, NULL)` of the
external OpenSSL library: pad the pending bytes, compress the last one or two
blocks and write the 32 digest bytes. -/
def EVP_DigestFinal_ex (ctx : EVP_MD_CTX) : List Byte :=
  let last := ctx.data ++ padding ctx.data.length ctx.total
  digestBytes (sha256_block_data_order (last.length / 64) ctx.h last)

/-! ## The operating system -/

/-- The two builds of the program (`#ifdef _WIN32`). -/
inductive Platform where
  | posix
  | win32
deriving DecidableEq, Repr

/-- What one call of `read` / `ReadFile` does. -/
inductive ReadResult where
  /-- The call succeeds and transfers these bytes; no bytes is end of file. -/
  | data (bytes : List Byte)
  /-- The call fails: `read` returns -1, `ReadFile` returns FALSE. -/
  | error
deriving DecidableEq, Repr

/-- The outcome of every system call of one run. -/
structure World where
  /-- Whether `open` / `CreateFileA` returns a valid handle. -/
  openOk : Bool
  /-- The text `perror` appends for the current `errno`. -/
  strerror : String
  /-- The size reported by `fstat` / `GetFileSizeEx`; `none` when the call fails. -/
  stSize : Option Int
  /-- The bytes a mapping of the file makes readable, in order; a read past
  them kills the process (SIGBUS, or an access violation on Windows). -/
  content : List Byte
  /-- Whether `mmap` returns something other than `MAP_FAILED`. -/
  mmapOk : Bool
  /-- Whether `CreateFileMappingA` returns a mapping object. -/
  createMappingOk : Bool
  /-- Whether `MapViewOfFile` returns a view. -/
  mapViewOk : Bool
  /-- Whether `posix_memalign` / `_aligned_malloc` returns a buffer. -/
  allocOk : Bool
  /-- The outcomes of the successive read calls; once they are used up every
  further call reports end of file. -/
  reads : List ReadResult
deriving Repr

/-- The calls a run makes, in order. -/
inductive Event where
  /-- The call `open` / `CreateFileA`, with whether it gave a handle. -/
  | openFile (ok : Bool)
  /-- The call `fstat` / `GetFileSizeEx`, with whether it succeeded. -/
  | fileSize (ok : Bool)
  /-- The call `close(fd)` / `CloseHandle(hFile)`. -/
  | close
  /-- The call `mmap`, with whether it gave a region. -/
  | mmap (ok : Bool)
  /-- The call `madvise`. -/
  | madvise
  /-- The call `munmap`. -/
  | munmap
  /-- The call `CreateFileMappingA`, with whether it gave a mapping object. -/
  | createMapping (ok : Bool)
  /-- The call `MapViewOfFile`, with whether it gave a view. -/
  | mapView (ok : Bool)
  /-- The call `UnmapViewOfFile`. -/
  | unmapView
  /-- The call `CloseHandle(hMapping)`. -/
  | closeMapping
  /-- The call `posix_memalign` / `_aligned_malloc`, with whether it gave a buffer. -/
  | alloc (ok : Bool)
  /-- The call `free` / `_aligned_free`. -/
  | free
  /-- One call of `read` / `ReadFile`; `none` when it failed, else the byte count. -/
  | read (n : Option Nat)
  /-- The call `EVP_MD_CTX_new`. -/
  | ctxNew
  /-- The call `EVP_DigestInit_ex`. -/
  | digestInit
  /-- The call `EVP_DigestUpdate` with this length. -/
  | digestUpdate (len : Nat)
  /-- The call `EVP_DigestFinal_ex`. -/
  | digestFinal
  /-- The call `EVP_MD_CTX_free`. -/
  | ctxFree
deriving DecidableEq, Repr

/-- What a run of the program leaves behind. -/
structure Run where
  /-- The value `main` returns. -/
  exit : Int
  /-- Everything written to standard output. -/
  stdout : String
  /-- Everything written to standard error. -/
  stderr : String
  /-- The calls made, in order. -/
  trace : List Event
deriving DecidableEq, Repr

/-- The size of the read buffer, 8 MiB. -/
def BUF_SIZE : Nat := 8388608

/-- Conversion of a 64-bit signed size to `size_t` (64 bits). -/
def toSizeT (n : Int) : Nat := (n % 18446744073709551616).toNat

/-- What `perror(msg)` writes. -/
def perror (msg : String) (w : World) : String := msg ++ ": " ++ w.strerror ++ "\n"

/-- The function `compute_hash(data, len, hash)`: one context, one update over
the first `len` bytes of `data`, one finalisation.  Returns the 32 hash bytes
and the calls made; `none` when fewer than `len` bytes are readable at `data`:
the update reads past them and the process is killed, so the function never
returns. -/
def compute_hash (data : List Byte) (len : Nat) : Option (List Byte × List Event) :=
  if len ≤ data.length then
    let ctx := EVP_DigestInit_ex
    let ctx := EVP_DigestUpdate ctx (data.take len)
    some (EVP_DigestFinal_ex ctx, [.ctxNew, .digestInit, .digestUpdate len, .digestFinal, .ctxFree])
  else
    none

/-- The call `read(fd, buffer, count)`: the return value and the bytes now at
the start of the buffer. -/
def sysRead (count : Nat) : ReadResult → Int × List Byte
  | .data bytes => ((min bytes.length count : Nat), bytes.take count)
  | .error => (-1, [])

/-- The call `ReadFile(hFile, buffer, count, &bytesRead, NULL)`: the returned
flag, `bytesRead`, and the bytes now at the start of the buffer. -/
def sysReadFile (count : Nat) : ReadResult → Bool × Nat × List Byte
  | .data bytes => (true, min bytes.length count, bytes.take count)
  | .error => (false, 0, [])

/-- The loop `while ((bytesRead = read(fd, buffer, BUF_SIZE)) > 0)
EVP_DigestUpdate(ctx, buffer, bytesRead);` over the read outcomes of the world.
Returns the context after the loop and the calls made. -/
def readLoop (ctx : EVP_MD_CTX) : List ReadResult → EVP_MD_CTX × List Event
  | [] => (ctx, [.read (some 0)])
  | r :: rest =>
      let res := sysRead BUF_SIZE r
      if res.1 > 0 then
        let next := readLoop (EVP_DigestUpdate ctx (res.2.take res.1.toNat)) rest
        (next.1, .read (some res.1.toNat) :: .digestUpdate res.1.toNat :: next.2)
      else
        (ctx, [.read (if res.1 < 0 then none else some 0)])

/-- The loop `while (ReadFile(hFile, buffer, BUF_SIZE, &bytesRead, NULL) &&
bytesRead > 0) EVP_DigestUpdate(ctx, buffer, bytesRead);`. -/
def readFileLoop (ctx : EVP_MD_CTX) : List ReadResult → EVP_MD_CTX × List Event
  | [] => (ctx, [.read (some 0)])
  | r :: rest =>
      let res := sysReadFile BUF_SIZE r
      if res.1 && decide (res.2.1 > 0) then
        let next := readFileLoop (EVP_DigestUpdate ctx (res.2.2.take res.2.1)) rest
        (next.1, .read (some res.2.1) :: .digestUpdate res.2.1 :: next.2)
      else
        (ctx, [.read (if res.1 then some 0 else none)])

/-- The table `static const char hex[] = "0123456789abcdef"`, with its
terminating NUL. -/
def hex : List Char := "0123456789abcdef".toList ++ [Char.ofNat 0]

/-- The loop `for (; i < 32; i++) { putchar(hex[hash[i] >> 4]);
putchar(hex[hash[i] & 0xf]); }` with `n` iterations left; `none` if an array
index is out of range. -/
def putHex (hash : List Byte) : Nat → Nat → String → Option String
  | _, 0, out => some out
  | i, n + 1, out =>
      match hash[i]? with
      | none => none
      | some b =>
          match hex[b.val >>> 4]?, hex[b.val &&& 0xf]? with
          | some hi, some lo => putHex hash (i + 1) n ((out.push hi).push lo)
          | _, _ => none

/-- The code at the label `print_result`: everything written to standard
output; `none` if an array index is out of range. -/
def print_result (path : String) (hash : List Byte) : Option String :=
  (putHex hash 0 32 ("SHA256(" ++ path ++ ") = ")).map (fun out => out.push (Char.ofNat 10))

/-- The end of a successful run: print the hash and return 0. -/
def success (path : String) (hash : List Byte) (trace : List Event) : Option Run :=
  (print_result path hash).map (fun out => ⟨0, out, "", trace⟩)

/-- The buffered fallback of the POSIX build (from `posix_memalign` to
`close`), entered after the calls `pre`. -/
def buffered_posix (path : String) (w : World) (pre : List Event) : Option Run :=
  if w.allocOk = false then
    some ⟨1, "", "Memory allocation failed\n", pre ++ [.alloc false, .close]⟩
  else
    let loop := readLoop EVP_DigestInit_ex w.reads
    let hash := EVP_DigestFinal_ex loop.1
    success path hash
      (pre ++ [.alloc true, .ctxNew, .digestInit] ++ loop.2 ++ [.digestFinal, .ctxFree, .free, .close])

/-- The POSIX build of `main` after the argument check. -/
def main_posix (path : String) (w : World) : Option Run :=
  if w.openOk = false then
    some ⟨1, "", perror "Error opening file" w, [.openFile false]⟩
  else
    match w.stSize with
    | none => some ⟨1, "", perror "Error getting file size" w, [.openFile true, .fileSize false, .close]⟩
    | some size =>
        if size = 0 then
          some ⟨1, "", "Empty file\n", [.openFile true, .fileSize true, .close]⟩
        else if size > 10485760 then
          if w.mmapOk then
            match compute_hash w.content (toSizeT size) with
            | none => none
            | some res =>
                success path res.1
                  ([.openFile true, .fileSize true, .mmap true, .madvise] ++ res.2
                    ++ [.munmap, .close])
          else
            buffered_posix path w [.openFile true, .fileSize true, .mmap false]
        else
          buffered_posix path w [.openFile true, .fileSize true]

/-- The buffered fallback of the Windows build (from `_aligned_malloc` to
`CloseHandle(hFile)`), entered after the calls `pre`. -/
def buffered_win32 (path : String) (w : World) (pre : List Event) : Option Run :=
  if w.allocOk = false then
    some ⟨1, "", "Memory allocation failed\n", pre ++ [.alloc false, .close]⟩
  else
    let loop := readFileLoop EVP_DigestInit_ex w.reads
    let hash := EVP_DigestFinal_ex loop.1
    success path hash
      (pre ++ [.alloc true, .ctxNew, .digestInit] ++ loop.2 ++ [.digestFinal, .ctxFree, .free, .close])

/-- The Windows build of `main` after the argument check. -/
def main_win32 (path : String) (w : World) : Option Run :=
  if w.openOk = false then
    some ⟨1, "", "Error opening file: " ++ path ++ "\n", [.openFile false]⟩
  else
    match w.stSize with
    | none => some ⟨1, "", "Error getting file size\n", [.openFile true, .fileSize false, .close]⟩
    | some size =>
        if size = 0 then
          some ⟨1, "", "Empty file\n", [.openFile true, .fileSize true, .close]⟩
        else if size > 10485760 then
          if w.createMappingOk then
            if w.mapViewOk then
              match compute_hash w.content (toSizeT size) with
              | none => none
              | some res =>
                  success path res.1
                    ([.openFile true, .fileSize true, .createMapping true, .mapView true] ++ res.2
                      ++ [.unmapView, .closeMapping, .close])
            else
              buffered_win32 path w
                [.openFile true, .fileSize true, .createMapping true, .mapView false, .closeMapping]
          else
            buffered_win32 path w [.openFile true, .fileSize true, .createMapping false]
        else
          buffered_win32 path w [.openFile true, .fileSize true]

/-- The program: `argc` is the length of `argv`.  The result is `none` when the
run never returns from `main`: the process is killed reading past the mapped
bytes, or an array index goes out of range.  With no argument at all `argv[0]`
is NULL, which the C library prints as `(null)`. -/
def main (pf : Platform) (argv : List String) (w : World) : Option Run :=
  if argv.length ≠ 2 then
    some ⟨1, "", "Usage: " ++ argv.headD "(null)" ++ " <file>\n", []⟩
  else
    match pf with
    | .posix => main_posix (argv.getD 1 "") w
    | .win32 => main_win32 (argv.getD 1 "") w

/-! ## Vocabulary of the statements -/

/-- The context `c` has absorbed exactly the message `msg`: its chaining value
is that of the whole blocks of `msg`, its pending bytes are the rest. -/
def Absorbed (c : EVP_MD_CTX) (msg : List Byte) : Prop :=
  c.h = sha256_block_data_order (msg.length / 64) H0 msg ∧
  c.data = msg.drop (64 * (msg.length / 64)) ∧
  c.total = msg.length

instance (c : EVP_MD_CTX) (msg : List Byte) : Decidable (Absorbed c msg) := by
  unfold Absorbed
  infer_instance

/-- The bytes the read calls hand over before the first call that fails or
reports end of file. -/
def delivered : List ReadResult → List Byte
  | [] => []
  | .error :: _ => []
  | .data bytes :: rest => if bytes = [] then [] else bytes.take BUF_SIZE ++ delivered rest

/-- The lowercase digit of a nibble. -/
def hexDigit (n : Nat) : Char := "0123456789abcdef".toList.getD n (Char.ofNat 0)

/-- Two hex digits per byte, high nibble first. -/
def hexString (hash : List Byte) : List Char :=
  hash.flatMap (fun b => [hexDigit (b.val >>> 4), hexDigit (b.val &&& 0xf)])

/-- The line a successful run prints for this path and hash. -/
def digestLine (path : String) (hash : List Byte) : String :=
  "SHA256(" ++ path ++ ") = " ++ String.mk (hexString hash) ++ "\n"

/-- Whether a character is one of `0123456789abcdef`. -/
def isHexDigit (c : Char) : Bool := "0123456789abcdef".toList.contains c

/-- Whether `out` is one complete digest line for `path`: the text `SHA256(`,
the path, `) = `, 64 lowercase hex digits and a newline, and nothing else. -/
def isDigestLine (path out : String) : Bool :=
  let pre := ("SHA256(" ++ path ++ ") = ").data
  let rest := out.data.drop pre.length
  decide (out.data.take pre.length = pre) && decide (rest.length = 65)
    && (rest.take 64).all isHexDigit && decide (rest.drop 64 = [Char.ofNat 10])

/-- What the platform writes to standard error when the file cannot be opened. -/
def openDiagnostic (pf : Platform) (path : String) (w : World) : String :=
  match pf with
  | .posix => perror "Error opening file" w
  | .win32 => "Error opening file: " ++ path ++ "\n"

/-- What the platform writes to standard error when the size query fails. -/
def sizeDiagnostic (pf : Platform) (w : World) : String :=
  match pf with
  | .posix => perror "Error getting file size" w
  | .win32 => "Error getting file size\n"

/-- Whether the mapping calls of the platform succeed in this world. -/
def mapOk (pf : Platform) (w : World) : Bool :=
  match pf with
  | .posix => w.mmapOk
  | .win32 => w.createMappingOk && w.mapViewOk

/-- Whether the run is one that maps the file and finds fewer bytes readable
than the size reported: the file opens, the size exceeds 10485760, the mapping
calls succeed, and the mapping is shorter than that size. -/
def overRead (pf : Platform) (w : World) : Bool :=
  w.openOk &&
    match w.stSize with
    | none => false
    | some size =>
        decide (size > 10485760) && mapOk pf w && decide (w.content.length < toSizeT size)

/-- The same world, except that every mapping call succeeds. -/
def withMapping (w : World) : World :=
  { w with mmapOk := true, createMappingOk := true, mapViewOk := true }

/-- A call that asks the system for a mapping of the file. -/
def isMapCall : Event → Bool
  | .mmap _ => true
  | .createMapping _ => true
  | _ => false

/-- A call of `read` / `ReadFile`. -/
def isReadCall : Event → Bool
  | .read _ => true
  | _ => false

/-- A call the read loop makes: a read or a digest update. -/
def isLoopCall : Event → Bool
  | .read _ => true
  | .digestUpdate _ => true
  | _ => false

/-- The calls of a run that hashes through the mapping, `len` bytes long. -/
def mappedTrace (pf : Platform) (len : Nat) : List Event :=
  match pf with
  | .posix =>
      [.openFile true, .fileSize true, .mmap true, .madvise, .ctxNew, .digestInit,
       .digestUpdate len, .digestFinal, .ctxFree, .munmap, .close]
  | .win32 =>
      [.openFile true, .fileSize true, .createMapping true, .mapView true, .ctxNew, .digestInit,
       .digestUpdate len, .digestFinal, .ctxFree, .unmapView, .closeMapping, .close]

/-- The calls of a run that reaches the buffer allocation, up to that call:
open, size query and, above the threshold, the failed mapping attempt. -/
def bufferedPre (pf : Platform) (w : World) (size : Int) : List Event :=
  [.openFile true, .fileSize true] ++
    (if size > 10485760 then
      match pf with
      | .posix => [.mmap false]
      | .win32 =>
          if w.createMappingOk then [.createMapping true, .mapView false, .closeMapping]
          else [.createMapping false]
    else [])

/-- The calls of a run that hashes through buffered reads. -/
def bufferedTrace (pf : Platform) (w : World) (size : Int) : List Event :=
  bufferedPre pf w size ++ [.alloc true, .ctxNew, .digestInit]
    ++ (readLoop EVP_DigestInit_ex w.reads).2 ++ [.digestFinal, .ctxFree, .free, .close]

/-- What a run holds at one moment. -/
structure Resources where
  /-- The file handle is open. -/
  handle : Bool
  /-- A mapped region exists. -/
  region : Bool
  /-- A scratch buffer exists. -/
  buffer : Bool
  /-- A digest has been finalised. -/
  finalized : Bool
deriving DecidableEq, Repr

/-- The effect of one call on the resources held; `none` when the call breaks
the discipline: a handle opened while one is open, a region or buffer acquired
while a region or buffer exists, a region released before a digest is
finalised, a release of what is not held, or the handle closed while it is not
open or while a region or buffer still exists. -/
def Resources.step (s : Resources) : Event → Option Resources
  | .openFile true => if s.handle then none else some { s with handle := true }
  | .close =>
      if s.handle && !s.region && !s.buffer then some { s with handle := false } else none
  | .mmap true => if s.region || s.buffer then none else some { s with region := true }
  | .mapView true => if s.region || s.buffer then none else some { s with region := true }
  | .munmap => if s.region && s.finalized then some { s with region := false } else none
  | .unmapView => if s.region && s.finalized then some { s with region := false } else none
  | .alloc true => if s.region || s.buffer then none else some { s with buffer := true }
  | .free => if s.buffer then some { s with buffer := false } else none
  | .digestFinal => some { s with finalized := true }
  | _ => some s

/-- The resources held after a sequence of calls; `none` when one of them
breaks the discipline. -/
def Resources.run (s : Resources) : List Event → Option Resources
  | [] => some s
  | e :: es =>
      match s.step e with
      | none => none
      | some s1 => s1.run es

/-- Whether a sequence of calls keeps the discipline of `Resources.step` and
ends with nothing held. -/
def releasesAll (t : List Event) : Bool :=
  match Resources.run ⟨false, false, false, false⟩ t with
  | some s => !s.handle && !s.region && !s.buffer
  | none => false

/-! ## Sample worlds -/

/-- The three bytes of the text `abc`. -/
def abcBytes : List Byte := [0x61, 0x62, 0x63]

/-- The SHA-256 test vector for `abc`. -/
def abcDigest : List Byte :=
  [0xba, 0x78, 0x16, 0xbf, 0x8f, 0x01, 0xcf, 0xea, 0x41, 0x41, 0x40, 0xde, 0x5d, 0xae, 0x22, 0x23,
   0xb0, 0x03, 0x61, 0xa3, 0x96, 0x17, 0x7a, 0x9c, 0xb4, 0x10, 0xff, 0x61, 0xf2, 0x00, 0x15, 0xad]

/-- A file holding `abc`; every call succeeds and one read delivers the file. -/
def abcWorld : World :=
  { openOk := true, strerror := "", stSize := some 3, content := abcBytes, mmapOk := true,
    createMappingOk := true, mapViewOk := true, allocOk := true, reads := [.data abcBytes] }

/-- A file holding `abc` whose second read fails after the first delivered `ab`. -/
def tornWorld : World :=
  { abcWorld with strerror := "Input/output error", reads := [.data [0x61, 0x62], .error] }

/-- The run of the POSIX build on `tornWorld` for the path `f`: it ends with
status 0 and the digest line of `ab`. -/
def tornRun : Run :=
  ⟨0, "SHA256(f) = fb8e20fc2e4c3f248c60c39bd652f3c1347298bb977b8b4d5903b85055620603\n", "",
   [.openFile true, .fileSize true, .alloc true, .ctxNew, .digestInit, .read (some 2),
    .digestUpdate 2, .read none, .digestFinal, .ctxFree, .free, .close]⟩

/-- A file that held 10485761 bytes when its size was queried and was cut down
to `abc` before it is read: the mapping succeeds and makes one page of 4096
bytes readable, `abc` and zero fill. -/
def truncatedWorld : World :=
  { abcWorld with stSize := some 10485761, content := abcBytes ++ List.replicate 4093 0,
                  reads := [.data abcBytes] }

/-- A file of size zero. -/
def emptyWorld : World :=
  { abcWorld with stSize := some 0, content := [], reads := [] }

/-- A path that cannot be opened. -/
def missingWorld : World :=
  { abcWorld with openOk := false, strerror := "No such file or directory", stSize := none,
                  content := [], reads := [] }

/-- A file of 10485761 zero bytes, one byte above the threshold. -/
def bigBytes : List Byte := List.replicate 10485761 0

/-- The two reads that deliver `bigBytes`: a full buffer and the rest. -/
def bigChunks : List (List Byte) := [List.replicate 8388608 0, List.replicate 2097153 0]

/-- The file `bigBytes` in a world where no mapping can be made. -/
def bigWorld : World :=
  { openOk := true, strerror := "", stSize := some 10485761, content := bigBytes, mmapOk := false,
    createMappingOk := false, mapViewOk := false, allocOk := true,
    reads := bigChunks.map ReadResult.data }

/-- The two reads that deliver a file of 10485760 zero bytes. -/
def thresholdChunks : List (List Byte) := [List.replicate 8388608 0, List.replicate 2097152 0]

/-- A file of exactly 10485760 zero bytes; every call succeeds. -/
def thresholdWorld : World :=
  { openOk := true, strerror := "", stSize := some 10485760,
    content := List.replicate 10485760 0, mmapOk := true, createMappingOk := true,
    mapViewOk := true, allocOk := true, reads := thresholdChunks.map ReadResult.data }

/-! ## Lemmas -/

set_option maxRecDepth 100000

theorem blocks_add (n m : Nat) (h : Hash8) (bs : List Byte) :
    sha256_block_data_order (n + m) h bs
      = sha256_block_data_order m (sha256_block_data_order n h bs) (bs.drop (64 * n)) := by
  induction n generalizing h bs with
  | zero => simp [sha256_block_data_order]
  | succ k ih =>
      have e : k + 1 + m = (k + m) + 1 := by omega
      rw [e]
      simp only [sha256_block_data_order]
      rw [ih, List.drop_drop]
      congr 2
      omega

theorem blocks_append (n : Nat) (h : Hash8) (a b : List Byte) (hn : 64 * n ≤ a.length) :
    sha256_block_data_order n h (a ++ b) = sha256_block_data_order n h a := by
  induction n generalizing h a with
  | zero => simp [sha256_block_data_order]
  | succ k ih =>
      have h64 : 64 ≤ a.length := by omega
      simp only [sha256_block_data_order]
      rw [List.take_append_of_le_length h64, List.drop_append_of_le_length h64]
      apply ih
      simp only [List.length_drop]
      omega

/-- Absorbing a message and then a tail, through the pending bytes, is
compressing the blocks of the whole. -/
theorem blocks_resume (msg t : List Byte) :
    sha256_block_data_order ((msg ++ t).length / 64) H0 (msg ++ t)
      = sha256_block_data_order ((msg.drop (64 * (msg.length / 64)) ++ t).length / 64)
          (sha256_block_data_order (msg.length / 64) H0 msg)
          (msg.drop (64 * (msg.length / 64)) ++ t) := by
  have hq : 64 * (msg.length / 64) ≤ msg.length := Nat.mul_div_le _ _
  have hlen : (msg ++ t).length / 64
      = msg.length / 64 + (msg.drop (64 * (msg.length / 64)) ++ t).length / 64 := by
    simp only [List.length_append, List.length_drop]
    omega
  rw [hlen, blocks_add, blocks_append _ _ _ _ hq, List.drop_append_of_le_length hq]

theorem absorbed_init : Absorbed EVP_DigestInit_ex [] := by
  simp [Absorbed, EVP_DigestInit_ex, sha256_block_data_order]

theorem absorbed_update (c : EVP_MD_CTX) (msg d : List Byte) (hc : Absorbed c msg) :
    Absorbed (EVP_DigestUpdate c d) (msg ++ d) := by
  obtain ⟨h1, h2, h3⟩ := hc
  have hq : 64 * (msg.length / 64) ≤ msg.length := Nat.mul_div_le _ _
  refine ⟨?_, ?_, ?_⟩
  · simp only [EVP_DigestUpdate]
    rw [blocks_resume, h1, h2]
  · simp only [EVP_DigestUpdate]
    rw [h2, ← List.drop_append_of_le_length hq, List.drop_drop]
    congr 1
    simp only [List.length_append, List.length_drop]
    omega
  · simp [EVP_DigestUpdate, h3]

theorem absorbed_final (c : EVP_MD_CTX) (msg : List Byte) (hc : Absorbed c msg) :
    EVP_DigestFinal_ex c = sha256 msg := by
  obtain ⟨h1, h2, h3⟩ := hc
  have hp : padding c.data.length c.total = padding msg.length msg.length := by
    have : c.data.length % 64 = msg.length % 64 := by
      rw [h2, List.length_drop]; omega
    simp only [padding, this, h3]
  simp only [EVP_DigestFinal_ex, sha256]
  rw [blocks_resume, hp, h1, h2]

theorem absorbed_foldl (chunks : List (List Byte)) (c : EVP_MD_CTX) (msg : List Byte)
    (hc : Absorbed c msg) : Absorbed (chunks.foldl EVP_DigestUpdate c) (msg ++ chunks.flatten) := by
  induction chunks generalizing c msg with
  | nil => simpa using hc
  | cons d ds ih =>
      simp only [List.foldl_cons, List.flatten_cons, ← List.append_assoc]
      exact ih _ _ (absorbed_update c msg d hc)

theorem take_min_take (bytes : List Byte) (n : Nat) :
    (bytes.take n).take (min bytes.length n) = bytes.take n := by
  apply List.take_of_length_le
  simp only [List.length_take]
  omega

theorem readLoop_nil (ctx : EVP_MD_CTX) : readLoop ctx [] = (ctx, [.read (some 0)]) := rfl

theorem readLoop_error (ctx : EVP_MD_CTX) (rest : List ReadResult) :
    readLoop ctx (.error :: rest) = (ctx, [.read none]) := by
  simp [readLoop, sysRead]

theorem readLoop_eof (ctx : EVP_MD_CTX) (rest : List ReadResult) :
    readLoop ctx (.data [] :: rest) = (ctx, [.read (some 0)]) := by
  simp [readLoop, sysRead]

theorem readLoop_data (ctx : EVP_MD_CTX) (bytes : List Byte) (rest : List ReadResult)
    (hb : bytes ≠ []) :
    readLoop ctx (.data bytes :: rest)
      = ((readLoop (EVP_DigestUpdate ctx (bytes.take BUF_SIZE)) rest).1,
         .read (some (min bytes.length BUF_SIZE)) :: .digestUpdate (min bytes.length BUF_SIZE)
           :: (readLoop (EVP_DigestUpdate ctx (bytes.take BUF_SIZE)) rest).2) := by
  have hpos : 0 < bytes.length := List.length_pos.mpr hb
  have hmin : 0 < min bytes.length BUF_SIZE := by
    simp only [BUF_SIZE]; omega
  have hgt : ((min bytes.length BUF_SIZE : Nat) : Int) > 0 := by exact_mod_cast hmin
  simp only [readLoop, sysRead]
  rw [if_pos hgt]
  simp only [Int.toNat_ofNat, take_min_take]

theorem readFileLoop_eq (script : List ReadResult) (ctx : EVP_MD_CTX) :
    readFileLoop ctx script = readLoop ctx script := by
  induction script generalizing ctx with
  | nil => rfl
  | cons r rest ih =>
      cases r with
      | error => simp [readFileLoop, readLoop, sysReadFile, sysRead]
      | data bytes =>
          by_cases hb : bytes = []
          · subst hb
            simp [readFileLoop, readLoop, sysReadFile, sysRead]
          · have hpos : 0 < bytes.length := List.length_pos.mpr hb
            have hmin : 0 < min bytes.length BUF_SIZE := by
              simp only [BUF_SIZE]; omega
            rw [readLoop_data ctx bytes rest hb, ← ih]
            simp only [readFileLoop, sysReadFile]
            simp only [hmin, gt_iff_lt, decide_True, Bool.and_self, if_true, take_min_take]

theorem absorbed_readLoop (script : List ReadResult) (c : EVP_MD_CTX) (msg : List Byte)
    (hc : Absorbed c msg) : Absorbed (readLoop c script).1 (msg ++ delivered script) := by
  induction script generalizing c msg with
  | nil => simpa [readLoop, delivered] using hc
  | cons r rest ih =>
      cases r with
      | error => simpa [readLoop_error, delivered] using hc
      | data bytes =>
          by_cases hb : bytes = []
          · subst hb
            simpa [readLoop_eof, delivered] using hc
          · have h := ih _ _ (absorbed_update c msg (bytes.take BUF_SIZE) hc)
            rw [readLoop_data c bytes rest hb]
            simp only [delivered, hb, if_false]
            rw [← List.append_assoc]
            exact h

theorem compute_hash_eq (data : List Byte) (len : Nat) (hfit : len ≤ data.length) :
    compute_hash data len
      = some (sha256 (data.take len),
          [.ctxNew, .digestInit, .digestUpdate len, .digestFinal, .ctxFree]) := by
  have h := absorbed_update _ _ (data.take len) absorbed_init
  have e : EVP_DigestFinal_ex (EVP_DigestUpdate EVP_DigestInit_ex (data.take len))
      = sha256 (data.take len) := by
    simpa using absorbed_final _ _ h
  simp only [compute_hash, if_pos hfit, e]

theorem compute_hash_none (data : List Byte) (len : Nat) (hshort : data.length < len) :
    compute_hash data len = none := by
  simp only [compute_hash, if_neg (Nat.not_le.mpr hshort)]

theorem digestBytes_length (h : Hash8) : (digestBytes h).length = 32 := by
  simp [digestBytes, bytesOfWord]

theorem sha256_length (msg : List Byte) : (sha256 msg).length = 32 := by
  simp [sha256, digestBytes_length]

theorem final_length (c : EVP_MD_CTX) : (EVP_DigestFinal_ex c).length = 32 := by
  simp [EVP_DigestFinal_ex, digestBytes_length]

theorem hex_lookup (b : Byte) :
    hex[b.val >>> 4]? = some (hexDigit (b.val >>> 4)) ∧
    hex[b.val &&& 0xf]? = some (hexDigit (b.val &&& 0xf)) ∧
    b.val >>> 4 < 16 ∧ b.val &&& 0xf < 16 ∧
    hexDigit (b.val >>> 4) ∈ "0123456789abcdef".toList ∧
    hexDigit (b.val &&& 0xf) ∈ "0123456789abcdef".toList ∧
    "0123456789abcdef".toList[b.val >>> 4]? = some (hexDigit (b.val >>> 4)) ∧
    "0123456789abcdef".toList[b.val &&& 0xf]? = some (hexDigit (b.val &&& 0xf)) := by
  revert b
  decide

theorem putHex_eq (hash : List Byte) (n i : Nat) (out : String) (h : i + n ≤ hash.length) :
    putHex hash i n out = some (out ++ String.mk (hexString ((hash.drop i).take n))) := by
  induction n generalizing i out with
  | zero =>
      simp only [putHex, List.take_zero, hexString, List.flatMap_nil]
      congr 1
      apply String.ext
      simp
  | succ k ih =>
      have hi : i < hash.length := by omega
      have hd : hash.drop i = hash[i] :: hash.drop (i + 1) := List.drop_eq_getElem_cons hi
      obtain ⟨h1, h2, -⟩ := hex_lookup hash[i]
      simp only [putHex, List.getElem?_eq_getElem hi, h1, h2]
      have ht : (hash.drop i).take (k + 1) = hash[i] :: (hash.drop (i + 1)).take k := by
        rw [hd, List.take_succ_cons]
      rw [ih (i + 1) _ (by omega), ht]
      congr 1
      apply String.ext
      simp [hexString, String.data_append, String.push]

theorem print_result_eq (path : String) (hash : List Byte) (h : hash.length = 32) :
    print_result path hash = some (digestLine path hash) := by
  have e := putHex_eq hash 32 0 ("SHA256(" ++ path ++ ") = ") (by omega)
  have ht : (hash.drop 0).take 32 = hash := by
    rw [List.drop_zero]; exact List.take_of_length_le (by omega)
  rw [ht] at e
  simp only [print_result, e, Option.map_some', digestLine]
  congr 1

theorem success_eq (path : String) (hash : List Byte) (t : List Event) (h : hash.length = 32) :
    success path hash t = some ⟨0, digestLine path hash, "", t⟩ := by
  simp [success, print_result_eq path hash h]

theorem readLoop_final (script : List ReadResult) :
    EVP_DigestFinal_ex (readLoop EVP_DigestInit_ex script).1 = sha256 (delivered script) := by
  have h := absorbed_readLoop script _ _ absorbed_init
  simpa using absorbed_final _ _ h

theorem buffered_posix_eq (path : String) (w : World) (pre : List Event)
    (ha : w.allocOk = true) :
    buffered_posix path w pre
      = some ⟨0, digestLine path (sha256 (delivered w.reads)), "",
          pre ++ [.alloc true, .ctxNew, .digestInit] ++ (readLoop EVP_DigestInit_ex w.reads).2
            ++ [.digestFinal, .ctxFree, .free, .close]⟩ := by
  simp only [buffered_posix, ha, Bool.true_eq_false, if_false]
  rw [success_eq _ _ _ (final_length _), readLoop_final]

theorem buffered_win32_eq (path : String) (w : World) (pre : List Event)
    (ha : w.allocOk = true) :
    buffered_win32 path w pre
      = some ⟨0, digestLine path (sha256 (delivered w.reads)), "",
          pre ++ [.alloc true, .ctxNew, .digestInit] ++ (readLoop EVP_DigestInit_ex w.reads).2
            ++ [.digestFinal, .ctxFree, .free, .close]⟩ := by
  simp only [buffered_win32, ha, Bool.true_eq_false, if_false, readFileLoop_eq]
  rw [success_eq _ _ _ (final_length _), readLoop_final]

theorem str_newline_ne (s : String) : s ++ "\n" ≠ "" := by
  intro h
  have := congrArg String.length h
  simp [String.length_append] at this
  exact absurd this.2 (by decide)

theorem delivered_data (chunks : List (List Byte)) (tail : List ReadResult)
    (h : ∀ c ∈ chunks, c ≠ [] ∧ c.length ≤ BUF_SIZE) :
    delivered (chunks.map ReadResult.data ++ tail) = chunks.flatten ++ delivered tail := by
  induction chunks with
  | nil => simp
  | cons c cs ih =>
      have hc := h c (List.mem_cons_self _ _)
      have hcs : ∀ d ∈ cs, d ≠ [] ∧ d.length ≤ BUF_SIZE :=
        fun d hd => h d (List.mem_cons_of_mem _ hd)
      show delivered (ReadResult.data c :: (cs.map ReadResult.data ++ tail)) = _
      rw [delivered]
      simp only [hc.1, if_false]
      rw [ih hcs, List.take_of_length_le hc.2]
      simp

theorem toSizeT_natCast (n : Nat) (h : n < 18446744073709551616) : toSizeT (n : Int) = n := by
  unfold toSizeT
  have : ((n : Int) % 18446744073709551616) = (n : Int) := by
    apply Int.emod_eq_of_lt <;> omega
  rw [this]
  simp

theorem hexString_getElem (hash : List Byte) (i : Nat) (hi : i < hash.length) :
    (hexString hash)[2 * i]? = some (hexDigit (hash[i].val >>> 4)) ∧
    (hexString hash)[2 * i + 1]? = some (hexDigit (hash[i].val &&& 0xf)) := by
  induction hash generalizing i with
  | nil => simp at hi
  | cons b bs ih =>
      cases i with
      | zero => simp [hexString]
      | succ k =>
          have hk : k < bs.length := by simpa using hi
          have e1 : 2 * (k + 1) = (2 * k) + 1 + 1 := by omega
          have e2 : 2 * (k + 1) + 1 = (2 * k + 1) + 1 + 1 := by omega
          have := ih k hk
          constructor
          · rw [e1]
            simpa [hexString] using this.1
          · rw [e2]
            simpa [hexString] using this.2

theorem hexString_length (hash : List Byte) : (hexString hash).length = 2 * hash.length := by
  induction hash with
  | nil => rfl
  | cons b bs ih =>
      have : hexString (b :: bs) = hexDigit (b.val >>> 4) :: hexDigit (b.val &&& 0xf) :: hexString bs := by
        simp [hexString]
      rw [this]
      simp only [List.length_cons, ih]
      omega

theorem hexString_mem (hash : List Byte) (c : Char) (hc : c ∈ hexString hash) :
    c ∈ "0123456789abcdef".toList := by
  simp only [hexString, List.mem_flatMap] at hc
  obtain ⟨b, -, hb⟩ := hc
  obtain ⟨-, -, -, -, h5, h6, -⟩ := hex_lookup b
  simp only [List.mem_cons, List.mem_singleton, List.not_mem_nil, or_false] at hb
  rcases hb with rfl | rfl
  · exact h5
  · exact h6

/-! ### The runs of `main`, case by case -/

theorem main_open_failed (pf : Platform) (a0 path : String) (w : World)
    (hopen : w.openOk = false) :
    main pf [a0, path] w
      = some ⟨1, "",
          openDiagnostic pf path w, [.openFile false]⟩ := by
  cases pf <;> simp [main, main_posix, main_win32, hopen, openDiagnostic]

theorem main_size_failed (pf : Platform) (a0 path : String) (w : World)
    (hopen : w.openOk = true) (hsize : w.stSize = none) :
    main pf [a0, path] w
      = some ⟨1, "",
          sizeDiagnostic pf w, [.openFile true, .fileSize false, .close]⟩ := by
  cases pf <;> simp [main, main_posix, main_win32, hopen, hsize, sizeDiagnostic]

theorem openDiagnostic_ne (pf : Platform) (path : String) (w : World) :
    openDiagnostic pf path w ≠ "" := by
  cases pf
  · exact str_newline_ne _
  · exact str_newline_ne _

theorem sizeDiagnostic_ne (pf : Platform) (w : World) : sizeDiagnostic pf w ≠ "" := by
  cases pf
  · exact str_newline_ne _
  · exact str_newline_ne "Error getting file size"

theorem main_empty (pf : Platform) (a0 path : String) (w : World)
    (hopen : w.openOk = true) (hsize : w.stSize = some 0) :
    main pf [a0, path] w
      = some ⟨1, "", "Empty file\n", [.openFile true, .fileSize true, .close]⟩ := by
  cases pf <;> simp [main, main_posix, main_win32, hopen, hsize]

theorem success_sha256 (path : String) (msg : List Byte) (t : List Event) :
    success path (sha256 msg) t = some ⟨0, digestLine path (sha256 msg), "", t⟩ :=
  success_eq _ _ _ (sha256_length _)

theorem main_mapped (pf : Platform) (a0 path : String) (w : World) (size : Int)
    (hopen : w.openOk = true) (hsize : w.stSize = some size) (hbig : size > 10485760)
    (hmap : mapOk pf w = true) (hfit : toSizeT size ≤ w.content.length) :
    main pf [a0, path] w
      = some ⟨0, digestLine path (sha256 (w.content.take (toSizeT size))), "",
          mappedTrace pf (toSizeT size)⟩ := by
  have h0 : size ≠ 0 := by omega
  cases pf
  · simp only [mapOk] at hmap
    simp [main, main_posix, hopen, hsize, h0, hbig, hmap,
      success_sha256, compute_hash_eq _ _ hfit, mappedTrace]
  · simp only [mapOk, Bool.and_eq_true] at hmap
    simp [main, main_win32, hopen, hsize, h0, hbig, hmap.1, hmap.2,
      success_sha256, compute_hash_eq _ _ hfit, mappedTrace]

theorem main_killed (pf : Platform) (a0 path : String) (w : World) (size : Int)
    (hopen : w.openOk = true) (hsize : w.stSize = some size) (hbig : size > 10485760)
    (hmap : mapOk pf w = true) (hshort : w.content.length < toSizeT size) :
    main pf [a0, path] w = none := by
  have h0 : size ≠ 0 := by omega
  cases pf
  · simp only [mapOk] at hmap
    simp [main, main_posix, hopen, hsize, h0, hbig, hmap, compute_hash_none _ _ hshort]
  · simp only [mapOk, Bool.and_eq_true] at hmap
    simp [main, main_win32, hopen, hsize, h0, hbig, hmap.1, hmap.2,
      compute_hash_none _ _ hshort]

theorem overRead_iff (pf : Platform) (w : World) (size : Int) (hopen : w.openOk = true)
    (hsize : w.stSize = some size) :
    overRead pf w = true
      ↔ size > 10485760 ∧ mapOk pf w = true ∧ w.content.length < toSizeT size := by
  simp [overRead, hopen, hsize, and_assoc]

theorem overRead_closed (pf : Platform) (w : World) (hopen : w.openOk = false) :
    overRead pf w = false := by
  simp [overRead, hopen]

theorem overRead_no_size (pf : Platform) (w : World) (hsize : w.stSize = none) :
    overRead pf w = false := by
  simp [overRead, hsize]

theorem main_alloc_failed (pf : Platform) (a0 path : String) (w : World) (size : Int)
    (hopen : w.openOk = true) (hsize : w.stSize = some size) (h0 : size ≠ 0)
    (hbuf : ¬ size > 10485760 ∨ mapOk pf w = false) (halloc : w.allocOk = false) :
    main pf [a0, path] w
      = some ⟨1, "", "Memory allocation failed\n",
          bufferedPre pf w size ++ [.alloc false, .close]⟩ := by
  cases pf
  · simp only [mapOk] at hbuf
    by_cases hbig : size > 10485760
    · have hm : w.mmapOk = false := by simpa [hbig] using hbuf
      simp [main, main_posix, buffered_posix, hopen, hsize, h0, hbig, hm, halloc, bufferedPre]
    · simp [main, main_posix, buffered_posix, hopen, hsize, h0, hbig, halloc, bufferedPre]
  · simp only [mapOk] at hbuf
    by_cases hbig : size > 10485760
    · have hm : (w.createMappingOk && w.mapViewOk) = false := by simpa [hbig] using hbuf
      by_cases hc : w.createMappingOk = true
      · have hv : w.mapViewOk = false := by simpa [hc] using hm
        simp [main, main_win32, buffered_win32, hopen, hsize, h0, hbig, hc, hv, halloc,
          bufferedPre]
      · have hc : w.createMappingOk = false := by simpa using hc
        simp [main, main_win32, buffered_win32, hopen, hsize, h0, hbig, hc, halloc, bufferedPre]
    · simp [main, main_win32, buffered_win32, hopen, hsize, h0, hbig, halloc, bufferedPre]

theorem main_buffered (pf : Platform) (a0 path : String) (w : World) (size : Int)
    (hopen : w.openOk = true) (hsize : w.stSize = some size) (h0 : size ≠ 0)
    (hbuf : ¬ size > 10485760 ∨ mapOk pf w = false) (halloc : w.allocOk = true) :
    main pf [a0, path] w
      = some ⟨0, digestLine path (sha256 (delivered w.reads)), "", bufferedTrace pf w size⟩ := by
  cases pf
  · simp only [mapOk] at hbuf
    by_cases hbig : size > 10485760
    · have hm : w.mmapOk = false := by simpa [hbig] using hbuf
      simp [main, main_posix, buffered_posix_eq _ _ _ halloc, hopen, hsize, h0, hbig, hm,
        bufferedTrace, bufferedPre]
    · simp [main, main_posix, buffered_posix_eq _ _ _ halloc, hopen, hsize, h0, hbig,
        bufferedTrace, bufferedPre]
  · simp only [mapOk] at hbuf
    by_cases hbig : size > 10485760
    · have hm : (w.createMappingOk && w.mapViewOk) = false := by simpa [hbig] using hbuf
      by_cases hc : w.createMappingOk = true
      · have hv : w.mapViewOk = false := by simpa [hc] using hm
        simp [main, main_win32, buffered_win32_eq _ _ _ halloc, hopen, hsize, h0, hbig, hc, hv,
          bufferedTrace, bufferedPre]
      · have hc : w.createMappingOk = false := by simpa using hc
        simp [main, main_win32, buffered_win32_eq _ _ _ halloc, hopen, hsize, h0, hbig, hc,
          bufferedTrace, bufferedPre]
    · simp [main, main_win32, buffered_win32_eq _ _ _ halloc, hopen, hsize, h0, hbig,
        bufferedTrace, bufferedPre]

/-! ### The calls of the read loop -/

theorem readLoop_calls (script : List ReadResult) (c : EVP_MD_CTX) :
    ∀ e ∈ (readLoop c script).2, isLoopCall e = true := by
  induction script generalizing c with
  | nil => simp [readLoop_nil, isLoopCall]
  | cons r rest ih =>
      cases r with
      | error => simp [readLoop_error, isLoopCall]
      | data bytes =>
          by_cases hb : bytes = []
          · subst hb
            simp [readLoop_eof, isLoopCall]
          · rw [readLoop_data c bytes rest hb]
            intro e he
            simp only [List.mem_cons] at he
            rcases he with rfl | rfl | he
            · rfl
            · rfl
            · exact ih _ e he

theorem readLoop_reads (script : List ReadResult) (c : EVP_MD_CTX) :
    (readLoop c script).2.any isReadCall = true := by
  cases script with
  | nil => simp [readLoop_nil, isReadCall]
  | cons r rest =>
      cases r with
      | error => simp [readLoop_error, isReadCall]
      | data bytes =>
          by_cases hb : bytes = []
          · subst hb
            simp [readLoop_eof, isReadCall]
          · rw [readLoop_data c bytes rest hb]
            simp [isReadCall]

theorem readLoop_failed_read (chunks : List (List Byte)) (rest : List ReadResult)
    (c : EVP_MD_CTX) (h : ∀ d ∈ chunks, d ≠ [] ∧ d.length ≤ BUF_SIZE) :
    Event.read none ∈ (readLoop c (chunks.map ReadResult.data ++ ReadResult.error :: rest)).2 := by
  induction chunks generalizing c with
  | nil => simp [readLoop_error]
  | cons d ds ih =>
      have hd := h d (List.mem_cons_self _ _)
      have hds : ∀ x ∈ ds, x ≠ [] ∧ x.length ≤ BUF_SIZE :=
        fun x hx => h x (List.mem_cons_of_mem _ hx)
      show Event.read none ∈ (readLoop c (ReadResult.data d :: (ds.map ReadResult.data
        ++ ReadResult.error :: rest))).2
      rw [readLoop_data c d _ hd.1]
      simp only [List.mem_cons]
      exact Or.inr (Or.inr (ih _ hds))

theorem loopCalls_not_map (l : List Event) (h : ∀ e ∈ l, isLoopCall e = true) :
    l.any isMapCall = false := by
  rw [List.any_eq_false]
  intro e he
  have := h e he
  cases e <;> simp_all [isLoopCall, isMapCall]

theorem loopCalls_count_close (l : List Event) (h : ∀ e ∈ l, isLoopCall e = true) :
    l.count Event.close = 0 := by
  rw [List.count_eq_zero]
  intro hc
  have := h _ hc
  simp [isLoopCall] at this

theorem run_append (s : Resources) (l1 l2 : List Event) :
    s.run (l1 ++ l2) = (s.run l1).bind (fun s1 => s1.run l2) := by
  induction l1 generalizing s with
  | nil => rfl
  | cons e es ih =>
      simp only [List.cons_append, Resources.run]
      cases hs : s.step e with
      | none => rfl
      | some s1 => simpa using ih s1

theorem run_loopCalls (s : Resources) (l : List Event) (h : ∀ e ∈ l, isLoopCall e = true) :
    s.run l = some s := by
  induction l with
  | nil => rfl
  | cons e es ih =>
      have he := h e (List.mem_cons_self _ _)
      have hes : ∀ x ∈ es, isLoopCall x = true := fun x hx => h x (List.mem_cons_of_mem _ hx)
      have hstep : s.step e = some s := by
        cases e <;> simp_all [isLoopCall, Resources.step]
      simp only [Resources.run, hstep, ih hes]

theorem digestLine_data (path : String) (hash : List Byte) :
    (digestLine path hash).data
      = ("SHA256(" ++ path ++ ") = ").data ++ (hexString hash ++ [Char.ofNat 10]) := by
  simp [digestLine, String.data_append]

theorem isDigestLine_digestLine (path : String) (hash : List Byte) (h : hash.length = 32) :
    isDigestLine path (digestLine path hash) = true := by
  have hl : (hexString hash).length = 64 := by rw [hexString_length, h]
  have hall : (hexString hash).all isHexDigit = true := by
    rw [List.all_eq_true]
    intro c hc
    simpa [isHexDigit] using hexString_mem hash c hc
  simp only [isDigestLine, digestLine_data, List.take_left', List.drop_left']
  have e1 : (hexString hash ++ [Char.ofNat 10]).take 64 = hexString hash := by
    rw [← hl]; exact List.take_left' rfl
  have e2 : (hexString hash ++ [Char.ofNat 10]).drop 64 = [Char.ofNat 10] := by
    rw [← hl]; exact List.drop_left' rfl
  simp [e1, e2, hall, hl]

theorem isDigestLine_empty (path : String) : isDigestLine path "" = false := by
  simp [isDigestLine]

theorem main_cases (pf : Platform) (a0 path : String) (w : World) :
    (w.openOk = false ∧ main pf [a0, path] w
        = some ⟨1, "", openDiagnostic pf path w, [.openFile false]⟩) ∨
    (w.openOk = true ∧ w.stSize = none ∧ main pf [a0, path] w
        = some ⟨1, "", sizeDiagnostic pf w, [.openFile true, .fileSize false, .close]⟩) ∨
    (w.openOk = true ∧ w.stSize = some 0 ∧ main pf [a0, path] w
        = some ⟨1, "", "Empty file\n", [.openFile true, .fileSize true, .close]⟩) ∨
    (∃ size, w.openOk = true ∧ w.stSize = some size ∧ size > 10485760 ∧ mapOk pf w = true ∧
      w.content.length < toSizeT size ∧ main pf [a0, path] w = none) ∨
    (∃ size, w.openOk = true ∧ w.stSize = some size ∧ size > 10485760 ∧ mapOk pf w = true ∧
      toSizeT size ≤ w.content.length ∧
      main pf [a0, path] w
        = some ⟨0, digestLine path (sha256 (w.content.take (toSizeT size))), "",
            mappedTrace pf (toSizeT size)⟩) ∨
    (∃ size, w.openOk = true ∧ w.stSize = some size ∧ size ≠ 0 ∧
      (¬ size > 10485760 ∨ mapOk pf w = false) ∧ w.allocOk = false ∧
      main pf [a0, path] w
        = some ⟨1, "", "Memory allocation failed\n",
            bufferedPre pf w size ++ [.alloc false, .close]⟩) ∨
    (∃ size, w.openOk = true ∧ w.stSize = some size ∧ size ≠ 0 ∧
      (¬ size > 10485760 ∨ mapOk pf w = false) ∧ w.allocOk = true ∧
      main pf [a0, path] w
        = some ⟨0, digestLine path (sha256 (delivered w.reads)), "", bufferedTrace pf w size⟩) := by
  by_cases hopen : w.openOk = true
  swap
  · have hopen : w.openOk = false := by simpa using hopen
    exact Or.inl ⟨hopen, main_open_failed pf a0 path w hopen⟩
  cases hsize : w.stSize with
  | none => exact Or.inr (Or.inl ⟨hopen, rfl, main_size_failed pf a0 path w hopen hsize⟩)
  | some size =>
      by_cases h0 : size = 0
      · subst h0
        exact Or.inr (Or.inr (Or.inl ⟨hopen, rfl, main_empty pf a0 path w hopen hsize⟩))
      by_cases hm : size > 10485760 ∧ mapOk pf w = true
      · by_cases hfit : toSizeT size ≤ w.content.length
        · exact Or.inr (Or.inr (Or.inr (Or.inr (Or.inl
            ⟨size, hopen, rfl, hm.1, hm.2, hfit,
              main_mapped pf a0 path w size hopen hsize hm.1 hm.2 hfit⟩))))
        · have hshort : w.content.length < toSizeT size := Nat.lt_of_not_le hfit
          exact Or.inr (Or.inr (Or.inr (Or.inl
            ⟨size, hopen, rfl, hm.1, hm.2, hshort,
              main_killed pf a0 path w size hopen hsize hm.1 hm.2 hshort⟩)))
      have hbuf : ¬ size > 10485760 ∨ mapOk pf w = false := by
        by_cases hb : size > 10485760
        · right
          simpa [hb] using hm
        · exact Or.inl hb
      by_cases halloc : w.allocOk = true
      · exact Or.inr (Or.inr (Or.inr (Or.inr (Or.inr (Or.inr
          ⟨size, hopen, rfl, h0, hbuf, halloc,
            main_buffered pf a0 path w size hopen hsize h0 hbuf halloc⟩)))))
      · have halloc : w.allocOk = false := by simpa using halloc
        exact Or.inr (Or.inr (Or.inr (Or.inr (Or.inr (Or.inl
          ⟨size, hopen, rfl, h0, hbuf, halloc,
            main_alloc_failed pf a0 path w size hopen hsize h0 hbuf halloc⟩)))))

theorem main_usage (pf : Platform) (argv : List String) (w : World) (h : argv.length ≠ 2) :
    main pf argv w = some ⟨1, "", "Usage: " ++ argv.headD "(null)" ++ " <file>\n", []⟩ := by
  simp [main, h]

theorem main_overRead (pf : Platform) (a0 path : String) (w : World)
    (h : overRead pf w = true) : main pf [a0, path] w = none := by
  cases hopen : w.openOk with
  | false => rw [overRead_closed pf w hopen] at h; exact absurd h (by decide)
  | true =>
      cases hsize : w.stSize with
      | none => rw [overRead_no_size pf w hsize] at h; exact absurd h (by decide)
      | some size =>
          obtain ⟨h1, h2, h3⟩ := (overRead_iff pf w size hopen hsize).mp h
          exact main_killed pf a0 path w size hopen hsize h1 h2 h3

theorem argv_two (argv : List String) (h : argv.length = 2) :
    ∃ a0 path, argv = [a0, path] := by
  match argv, h with
  | [a0, path], _ => exact ⟨a0, path, rfl⟩

theorem bufferedPre_map (pf : Platform) (w : World) (size : Int) :
    (bufferedPre pf w size).any isMapCall = true ↔ size > 10485760 := by
  by_cases hb : size > 10485760
  · cases pf
    · simp [bufferedPre, hb, isMapCall]
    · cases hc : w.createMappingOk <;> simp [bufferedPre, hb, isMapCall, hc]
  · simp [bufferedPre, hb, isMapCall]

theorem bufferedPre_run (pf : Platform) (w : World) (size : Int) :
    Resources.run ⟨false, false, false, false⟩ (bufferedPre pf w size)
      = some ⟨true, false, false, false⟩ := by
  by_cases hb : size > 10485760
  · cases pf
    · simp [bufferedPre, hb, Resources.run, Resources.step]
    · cases hc : w.createMappingOk <;> simp [bufferedPre, hb, hc, Resources.run, Resources.step]
  · simp [bufferedPre, hb, Resources.run, Resources.step]

theorem bufferedPre_count (pf : Platform) (w : World) (size : Int) :
    (bufferedPre pf w size).count Event.close = 0 := by
  by_cases hb : size > 10485760
  · cases pf
    · simp [bufferedPre, hb]
    · cases hc : w.createMappingOk <;> simp [bufferedPre, hb, hc]
  · simp [bufferedPre, hb]

theorem bufferedTrace_map (pf : Platform) (w : World) (size : Int) :
    (bufferedTrace pf w size).any isMapCall = true ↔ size > 10485760 := by
  have h1 := loopCalls_not_map _ (readLoop_calls w.reads EVP_DigestInit_ex)
  have h2 := bufferedPre_map pf w size
  simp only [bufferedTrace, List.any_append, h1, Bool.or_false, Bool.or_eq_true, h2]
  simp [isMapCall]

theorem bufferedTrace_released (pf : Platform) (w : World) (size : Int) :
    (bufferedTrace pf w size).count Event.close = 1 ∧
    (bufferedTrace pf w size).getLast? = some Event.close ∧
    releasesAll (bufferedTrace pf w size) = true := by
  have hl := readLoop_calls w.reads EVP_DigestInit_ex
  refine ⟨?_, ?_, ?_⟩
  · simp only [bufferedTrace, List.count_append, bufferedPre_count, loopCalls_count_close _ hl]
    rfl
  · rw [bufferedTrace, List.getLast?_append]
    rfl
  · simp only [releasesAll, bufferedTrace, run_append, bufferedPre_run, run_loopCalls _ _ hl,
      Option.some_bind]
    rfl

theorem allocFailed_released (pf : Platform) (w : World) (size : Int) :
    (bufferedPre pf w size ++ [Event.alloc false, Event.close]).count Event.close = 1 ∧
    (bufferedPre pf w size ++ [Event.alloc false, Event.close]).getLast? = some Event.close ∧
    releasesAll (bufferedPre pf w size ++ [Event.alloc false, Event.close]) = true := by
  refine ⟨?_, ?_, ?_⟩
  · simp only [List.count_append, bufferedPre_count]
    rfl
  · rw [List.getLast?_append]
    rfl
  · simp only [releasesAll, run_append, bufferedPre_run, Option.some_bind]
    rfl

theorem mappedTrace_released (pf : Platform) (len : Nat) :
    (mappedTrace pf len).count Event.close = 1 ∧
    (mappedTrace pf len).getLast? = some Event.close ∧
    releasesAll (mappedTrace pf len) = true := by
  cases pf <;> simp [mappedTrace, releasesAll, Resources.run, Resources.step]

theorem tornWorld_run : main .posix ["thash", "f"] tornWorld = some tornRun := by
  decide

theorem replicate_chunk_ok (n : Nat) (hn : 0 < n) (hle : n ≤ BUF_SIZE) :
    List.replicate n (0 : Byte) ≠ [] ∧ (List.replicate n (0 : Byte)).length ≤ BUF_SIZE := by
  constructor
  · intro h
    have := congrArg List.length h
    rw [List.length_replicate, List.length_nil] at this
    omega
  · rw [List.length_replicate]
    exact hle

theorem bigChunks_ok : ∀ c ∈ bigChunks, c ≠ [] ∧ c.length ≤ BUF_SIZE := by
  intro c hc
  simp only [bigChunks, List.mem_cons, List.mem_singleton, List.not_mem_nil, or_false] at hc
  rcases hc with rfl | rfl
  · exact replicate_chunk_ok _ (by decide) (by decide)
  · exact replicate_chunk_ok _ (by decide) (by decide)

theorem bigChunks_flatten : bigChunks.flatten = bigBytes := by
  simp only [bigChunks, bigBytes, List.flatten_cons, List.flatten_nil, List.append_nil]
  rw [List.append_replicate_replicate]

theorem bigBytes_length : bigBytes.length = 10485761 := by
  rw [bigBytes, List.length_replicate]

theorem truncatedWorld_short : truncatedWorld.content.length < toSizeT 10485761 := by
  show (abcBytes ++ List.replicate 4093 (0 : Byte)).length < toSizeT 10485761
  rw [List.length_append, List.length_replicate]
  decide

theorem thresholdWorld_safe : overRead .posix thresholdWorld = false := by
  cases h : overRead .posix thresholdWorld with
  | false => rfl
  | true =>
      have := (overRead_iff .posix thresholdWorld 10485760 rfl rfl).mp h
      exact absurd this.1 (by decide)

/-! ## Properties of the program -/

/-- C1: a readable file with non-empty contents `B`, whose size query reports
the length of `B` (a length below 2^63, as a signed 64-bit size holds it) and
whose reads all succeed and deliver `B` in chunks of at
most `BUF_SIZE` bytes, is hashed to SHA-256 of `B` whichever strategy the run
takes (mapping, or buffered reads after a successful allocation): the run
returns 0, writes no diagnostic and prints the digest line of `sha256 B`, by
the calls of `mappedTrace` (one `compute_hash` over all the bytes) or of
`bufferedTrace` (one update per read); for `B` the text `abc` that line
carries `ba7816bf...f20015ad`. -/
theorem main_prints_sha256 (pf : Platform) (a0 path : String) (w : World) (B : List Byte)
    (chunks : List (List Byte))
    (hopen : w.openOk = true) (hne : B ≠ []) (hoff : B.length < 9223372036854775808)
    (hsize : w.stSize = some (B.length : Int)) (hcontent : w.content = B)
    (hreads : w.reads = chunks.map ReadResult.data)
    (hchunks : ∀ c ∈ chunks, c ≠ [] ∧ c.length ≤ BUF_SIZE) (hjoin : chunks.flatten = B)
    (htaken : (10485760 < B.length ∧ mapOk pf w = true) ∨ w.allocOk = true) :
    main pf [a0, path] w
      = some ⟨0, digestLine path (sha256 B), "",
          if 10485760 < B.length ∧ mapOk pf w = true then mappedTrace pf B.length
          else bufferedTrace pf w B.length⟩ ∧
      (B = abcBytes → digestLine path (sha256 B)
        = "SHA256(" ++ path
            ++ ") = ba7816bf8f01cfea414140de5dae2223b00361a396177a9cb410ff61f20015ad\n") := by
  have hvec : B = abcBytes → digestLine path (sha256 B)
      = "SHA256(" ++ path
          ++ ") = ba7816bf8f01cfea414140de5dae2223b00361a396177a9cb410ff61f20015ad\n" := by
    intro hB
    subst hB
    have hs : sha256 abcBytes = abcDigest := by decide
    have hx : String.mk (hexString abcDigest)
        = "ba7816bf8f01cfea414140de5dae2223b00361a396177a9cb410ff61f20015ad" := by decide
    simp only [digestLine, hs, hx, String.append_assoc]
    rfl
  have h0 : (B.length : Int) ≠ 0 := by
    have : 0 < B.length := List.length_pos.mpr hne
    omega
  have hdel : delivered w.reads = B := by
    have := delivered_data chunks [] hchunks
    simpa [hreads, hjoin, delivered] using this
  by_cases hm : (B.length : Int) > 10485760 ∧ mapOk pf w = true
  · refine ⟨?_, hvec⟩
    have hm2 : 10485760 < B.length ∧ mapOk pf w = true := ⟨by omega, hm.2⟩
    have hsz : toSizeT (B.length : Int) = B.length := toSizeT_natCast _ (by omega)
    have hfit : toSizeT (B.length : Int) ≤ w.content.length := by rw [hsz, hcontent]
    rw [main_mapped pf a0 path w _ hopen hsize hm.1 hm.2 hfit, hsz, hcontent,
      List.take_length, if_pos hm2]
  · have hbuf : ¬ (B.length : Int) > 10485760 ∨ mapOk pf w = false := by
      by_cases hb : (B.length : Int) > 10485760
      · right
        simpa [hb] using hm
      · exact Or.inl hb
    have halloc : w.allocOk = true := by
      rcases htaken with ⟨h1, h2⟩ | h
      · exact absurd ⟨by omega, h2⟩ hm
      · exact h
    have hm2 : ¬ (10485760 < B.length ∧ mapOk pf w = true) :=
      fun h => hm ⟨by omega, h.2⟩
    refine ⟨?_, hvec⟩
    rw [main_buffered pf a0 path w _ hopen hsize h0 hbuf halloc, hdel, if_neg hm2]

/-- The file `abc`, read in one chunk, prints the standard test vector. -/
theorem main_prints_sha256_witness :
    ∃ t, main .posix ["thash", "f"] abcWorld
      = some ⟨0, "SHA256(f) = ba7816bf8f01cfea414140de5dae2223b00361a396177a9cb410ff61f20015ad\n",
          "", t⟩ := by
  obtain ⟨h1, h2⟩ := main_prints_sha256 .posix "thash" "f" abcWorld abcBytes [abcBytes] rfl
    (by decide) (by decide) rfl rfl rfl (by decide) rfl (Or.inr rfl)
  exact ⟨_, by rw [h1, h2 rfl]; rfl⟩

/-- C2: with the file open and a non-zero size reported, a mapping call is
made exactly when the size exceeds 10485760.  A file of exactly 10485760 bytes
makes no mapping call and, once the buffer is allocated, is hashed by read
calls; a file of 10485761 bytes whose mapping succeeds is hashed by one
`compute_hash` over the 10485761 mapped bytes, with no read call.  All of this
holds of every run that returns; the only runs that do not return (`overRead`:
the mapping makes fewer bytes readable than the size reported) are runs that
took the mapping, with a size above 10485760. -/
theorem strategy_threshold (pf : Platform) (a0 path : String) (w : World) (size : Int)
    (hopen : w.openOk = true) (hsize : w.stSize = some size) (h0 : size ≠ 0) :
    (overRead pf w = true →
      main pf [a0, path] w = none ∧ size > 10485760 ∧ mapOk pf w = true) ∧
    (overRead pf w = false →
      ∃ r, main pf [a0, path] w = some r ∧
        (r.trace.any isMapCall = true ↔ size > 10485760) ∧
        (size = 10485760 → w.allocOk = true →
          r.exit = 0 ∧ r.trace.any isMapCall = false ∧ r.trace.any isReadCall = true ∧
          r.stdout = digestLine path (sha256 (delivered w.reads))) ∧
        (size = 10485761 → mapOk pf w = true →
          r.exit = 0 ∧ r.trace = mappedTrace pf 10485761 ∧ r.trace.any isReadCall = false ∧
          r.stdout = digestLine path (sha256 (w.content.take 10485761)))) := by
  constructor
  · intro hover
    obtain ⟨h1, h2, -⟩ := (overRead_iff pf w size hopen hsize).mp hover
    exact ⟨main_overRead pf a0 path w hover, h1, h2⟩
  intro hsafe
  rcases main_cases pf a0 path w with h | h | h | h | h | h | h
  · rw [hopen] at h
    exact absurd h.1 (by decide)
  · rw [hsize] at h
    exact absurd h.2.1 (by simp)
  · rw [hsize] at h
    exact absurd (Option.some.inj h.2.1) h0
  · obtain ⟨s, -, hs, hbig, hmap, hshort, -⟩ := h
    rw [hsize] at hs
    obtain rfl := Option.some.inj hs
    have := (overRead_iff pf w size hopen hsize).mpr ⟨hbig, hmap, hshort⟩
    rw [hsafe] at this
    exact absurd this (by decide)
  · obtain ⟨s, -, hs, hbig, hmap, -, hrun⟩ := h
    rw [hsize] at hs
    obtain rfl := Option.some.inj hs
    refine ⟨_, hrun, ?_, ?_, ?_⟩
    · have : (mappedTrace pf (toSizeT size)).any isMapCall = true := by
        cases pf <;> simp [mappedTrace, isMapCall]
      simp [this, hbig]
    · intro he
      omega
    · intro he _
      subst he
      have ht : toSizeT 10485761 = 10485761 := by decide
      refine ⟨rfl, by rw [ht], ?_, by rw [ht]⟩
      cases pf <;> simp [mappedTrace, isReadCall]
  · obtain ⟨s, -, hs, -, hbuf, halloc, hrun⟩ := h
    rw [hsize] at hs
    obtain rfl := Option.some.inj hs
    refine ⟨_, hrun, ?_, ?_, ?_⟩
    · have := bufferedPre_map pf w size
      simp only [List.any_append, Bool.or_eq_true, this]
      simp [isMapCall]
    · intro _ ha
      rw [halloc] at ha
      exact absurd ha (by decide)
    · intro he hm
      rcases hbuf with hb | hb
      · omega
      · rw [hm] at hb
        exact absurd hb (by decide)
  · obtain ⟨s, -, hs, -, hbuf, halloc, hrun⟩ := h
    rw [hsize] at hs
    obtain rfl := Option.some.inj hs
    refine ⟨_, hrun, bufferedTrace_map pf w size, ?_, ?_⟩
    · intro he _
      have hm : ¬ (bufferedTrace pf w size).any isMapCall = true := by
        rw [bufferedTrace_map]
        omega
      refine ⟨rfl, by simpa using hm, ?_, rfl⟩
      simp [bufferedTrace, List.any_append, readLoop_reads]
    · intro he hm
      rcases hbuf with hb | hb
      · omega
      · rw [hm] at hb
        exact absurd hb (by decide)

/-- A file of exactly 10485760 bytes is hashed by read calls, with no mapping call. -/
theorem strategy_threshold_witness :
    ∃ r, main .posix ["thash", "f"] thresholdWorld = some r ∧
      r.exit = 0 ∧ r.trace.any isMapCall = false ∧ r.trace.any isReadCall = true := by
  obtain ⟨r, h1, -, h3, -⟩ := (strategy_threshold .posix "thash" "f" thresholdWorld 10485760
    rfl rfl (by decide)).2 thresholdWorld_safe
  obtain ⟨e1, e2, e3, -⟩ := h3 rfl rfl
  exact ⟨r, h1, e1, e2, e3⟩

/-- C3: for a file above the threshold whose mapping fails while the buffer
allocation and all reads succeed, the run writes no diagnostic, goes on to
allocate the buffer and read, returns 0, and prints the digest line of
`sha256 B`, the very line the run prints when the mapping succeeds. -/
theorem mapping_failure_falls_back (pf : Platform) (a0 path : String) (w : World)
    (B : List Byte) (chunks : List (List Byte))
    (hopen : w.openOk = true) (hbig : 10485760 < B.length)
    (hoff : B.length < 9223372036854775808)
    (hsize : w.stSize = some (B.length : Int)) (hcontent : w.content = B)
    (hmap : mapOk pf w = false) (halloc : w.allocOk = true)
    (hreads : w.reads = chunks.map ReadResult.data)
    (hchunks : ∀ c ∈ chunks, c ≠ [] ∧ c.length ≤ BUF_SIZE) (hjoin : chunks.flatten = B) :
    ∃ t t2,
      main pf [a0, path] w = some ⟨0, digestLine path (sha256 B), "", t⟩ ∧
      Event.alloc true ∈ t ∧ t.any isReadCall = true ∧
      main pf [a0, path] (withMapping w) = some ⟨0, digestLine path (sha256 B), "", t2⟩ ∧
      t2.any isReadCall = false := by
  have h0 : (B.length : Int) ≠ 0 := by omega
  have hdel : delivered w.reads = B := by
    have := delivered_data chunks [] hchunks
    simpa [hreads, hjoin, delivered] using this
  have hmap2 : mapOk pf (withMapping w) = true := by
    cases pf <;> rfl
  refine ⟨bufferedTrace pf w B.length, mappedTrace pf B.length, ?_, ?_, ?_, ?_, ?_⟩
  · rw [main_buffered pf a0 path w _ hopen hsize h0 (Or.inr hmap) halloc, hdel]
  · simp [bufferedTrace]
  · simp [bufferedTrace, List.any_append, readLoop_reads]
  · have hsz : toSizeT (B.length : Int) = B.length := toSizeT_natCast _ (by omega)
    have hfit : toSizeT (B.length : Int) ≤ (withMapping w).content.length := by
      rw [hsz]
      show B.length ≤ w.content.length
      rw [hcontent]
    rw [main_mapped pf a0 path (withMapping w) _ hopen hsize (by omega) hmap2 hfit, hsz]
    show some (Run.mk 0 (digestLine path (sha256 (w.content.take B.length))) "" _) = _
    rw [hcontent, List.take_length]
  · cases pf <;> simp [mappedTrace, isReadCall]

theorem mapping_failure_falls_back_witness :
    ∃ t t2,
      main .posix ["thash", "big"] bigWorld = some ⟨0, digestLine "big" (sha256 bigBytes), "", t⟩ ∧
      Event.alloc true ∈ t ∧ t.any isReadCall = true ∧
      main .posix ["thash", "big"] (withMapping bigWorld)
        = some ⟨0, digestLine "big" (sha256 bigBytes), "", t2⟩ ∧
      t2.any isReadCall = false :=
  mapping_failure_falls_back .posix "thash" "big" bigWorld bigBytes bigChunks rfl
    (by rw [bigBytes_length]; decide) (by rw [bigBytes_length]; decide)
    (by rw [bigBytes_length]; rfl) rfl rfl rfl rfl bigChunks_ok bigChunks_flatten

/-- C4: when the file opens and its reported size is 0, the run makes exactly
three calls (open, size query, close): no mapping, no allocation, no read and
no digest call; it writes `Empty file` to standard error, nothing to standard
output, and returns 1. -/
theorem empty_file_rejected (pf : Platform) (a0 path : String) (w : World)
    (hopen : w.openOk = true) (hsize : w.stSize = some 0) :
    main pf [a0, path] w
      = some ⟨1, "", "Empty file\n", [.openFile true, .fileSize true, .close]⟩ :=
  main_empty pf a0 path w hopen hsize

theorem empty_file_rejected_witness :
    main .posix ["thash", "/tmp/empty"] emptyWorld
      = some ⟨1, "", "Empty file\n", [.openFile true, .fileSize true, .close]⟩ :=
  empty_file_rejected .posix "thash" "/tmp/empty" emptyWorld rfl rfl

/-- C5 as stated fails: the file holds `abc`, the first read delivers `ab`, the
second read fails; the run returns 0, writes no diagnostic and prints a digest
line (the digest of `ab`). -/
theorem read_error_not_fatal :
    main .posix ["thash", "f"] tornWorld
      = some ⟨0, "SHA256(f) = fb8e20fc2e4c3f248c60c39bd652f3c1347298bb977b8b4d5903b85055620603\n",
          "",
          [.openFile true, .fileSize true, .alloc true, .ctxNew, .digestInit, .read (some 2),
           .digestUpdate 2, .read none, .digestFinal, .ctxFree, .free, .close]⟩ :=
  tornWorld_run

/-- C5 amended: a read call that fails in the buffered loop ends the loop the
way end of file does: after the successful reads `chunks` and one failed read
the run finalises the digest of the bytes read so far, prints its digest line,
writes no diagnostic and returns 0. -/
theorem read_error_ends_loop (pf : Platform) (a0 path : String) (w : World) (size : Int)
    (chunks : List (List Byte)) (rest : List ReadResult)
    (hopen : w.openOk = true) (hsize : w.stSize = some size) (h0 : size ≠ 0)
    (hbuf : ¬ size > 10485760 ∨ mapOk pf w = false) (halloc : w.allocOk = true)
    (hreads : w.reads = chunks.map ReadResult.data ++ ReadResult.error :: rest)
    (hchunks : ∀ c ∈ chunks, c ≠ [] ∧ c.length ≤ BUF_SIZE) :
    ∃ t, main pf [a0, path] w = some ⟨0, digestLine path (sha256 chunks.flatten), "", t⟩ ∧
      Event.read none ∈ t := by
  have hdel : delivered w.reads = chunks.flatten := by
    rw [hreads, delivered_data chunks _ hchunks]
    simp [delivered]
  refine ⟨bufferedTrace pf w size, ?_, ?_⟩
  · rw [main_buffered pf a0 path w size hopen hsize h0 hbuf halloc, hdel]
  · have := readLoop_failed_read chunks rest EVP_DigestInit_ex hchunks
    simp only [bufferedTrace, hreads, List.mem_append]
    exact Or.inl (Or.inr this)

theorem read_error_ends_loop_witness :
    ∃ t, main .posix ["thash", "f"] tornWorld
        = some ⟨0, digestLine "f" (sha256 [[(0x61 : Byte), 0x62]].flatten), "", t⟩ ∧
      Event.read none ∈ t :=
  read_error_ends_loop .posix "thash" "f" tornWorld 3 [[0x61, 0x62]] [] rfl rfl (by decide)
    (Or.inl (by decide)) rfl rfl (by decide)

/-- C6: when the open call fails the run makes that one call and no other (no
size query, mapping, allocation, read or digest call), writes a non-empty
diagnostic starting `Error opening file` to standard error, nothing to standard
output, and returns 1. -/
theorem open_failure (pf : Platform) (a0 path : String) (w : World)
    (hopen : w.openOk = false) :
    ∃ detail, main pf [a0, path] w
        = some ⟨1, "", "Error opening file: " ++ detail ++ "\n", [.openFile false]⟩ ∧
      "Error opening file: " ++ detail ++ "\n" ≠ "" := by
  refine ⟨match pf with
    | .posix => w.strerror
    | .win32 => path, ?_, str_newline_ne _⟩
  rw [main_open_failed pf a0 path w hopen]
  cases pf <;> simp [openDiagnostic, perror, String.append_assoc]

theorem open_failure_witness :
    ∃ detail, main .posix ["thash", "/nonexistent"] missingWorld
        = some ⟨1, "", "Error opening file: " ++ detail ++ "\n", [.openFile false]⟩ ∧
      "Error opening file: " ++ detail ++ "\n" ≠ "" :=
  open_failure .posix "thash" "/nonexistent" missingWorld rfl

/-- C7: for every path and every hash of 32 bytes, the code at `print_result`
writes exactly `SHA256(`, the path, `) = `, the hex string of the hash and a
newline, and no array index goes out of range (the result is not `none`).  The
hex string has 64 characters, all among `0123456789abcdef`; characters `2i`
and `2i+1` are the table entries for `hash[i] >> 4` and `hash[i] & 0xf`, two
indices that are always below 16. -/
theorem print_result_format (path : String) (hash : List Byte) (hlen : hash.length = 32) :
    print_result path hash
      = some ("SHA256(" ++ path ++ ") = " ++ String.mk (hexString hash) ++ "\n") ∧
    (hexString hash).length = 64 ∧
    (∀ c ∈ hexString hash, c ∈ "0123456789abcdef".toList) ∧
    ∀ (i : Nat) (hi : i < hash.length),
      hash[i].val >>> 4 < 16 ∧ hash[i].val &&& 0xf < 16 ∧
      (hexString hash)[2 * i]? = "0123456789abcdef".toList[hash[i].val >>> 4]? ∧
      (hexString hash)[2 * i + 1]? = "0123456789abcdef".toList[hash[i].val &&& 0xf]? := by
  refine ⟨print_result_eq path hash hlen, ?_, hexString_mem hash, ?_⟩
  · rw [hexString_length, hlen]
  · intro i hi
    obtain ⟨-, -, h3, h4, -, -, h7, h8⟩ := hex_lookup hash[i]
    obtain ⟨g1, g2⟩ := hexString_getElem hash i hi
    exact ⟨h3, h4, g1.trans h7.symm, g2.trans h8.symm⟩

/-- The hash of `abc` prints as the standard test vector. -/
theorem print_result_format_witness :
    print_result "f" abcDigest
      = some "SHA256(f) = ba7816bf8f01cfea414140de5dae2223b00361a396177a9cb410ff61f20015ad\n" :=
  (print_result_format "f" abcDigest (by decide)).1.trans (by decide)

/-- C8: feeding the digest engine any sequence of chunks one update at a
time, then finalising, gives the same 32 bytes as `compute_hash` over their
concatenation in one update; in particular the buffered read loop finalises to
what `compute_hash` gives over the bytes the reads delivered. -/
theorem chunking_invariance (chunks : List (List Byte)) (script : List ReadResult) :
    (compute_hash chunks.flatten chunks.flatten.length).map Prod.fst
      = some (EVP_DigestFinal_ex (chunks.foldl EVP_DigestUpdate EVP_DigestInit_ex)) ∧
    (compute_hash (delivered script) (delivered script).length).map Prod.fst
      = some (EVP_DigestFinal_ex (readLoop EVP_DigestInit_ex script).1) ∧
    (EVP_DigestFinal_ex (chunks.foldl EVP_DigestUpdate EVP_DigestInit_ex)).length = 32 := by
  refine ⟨?_, ?_, final_length _⟩
  · have h := absorbed_foldl chunks _ _ absorbed_init
    have e : EVP_DigestFinal_ex (chunks.foldl EVP_DigestUpdate EVP_DigestInit_ex)
        = sha256 chunks.flatten := by
      simpa using absorbed_final _ _ h
    rw [compute_hash_eq _ _ (Nat.le_refl _), List.take_length, e]
    rfl
  · rw [compute_hash_eq _ _ (Nat.le_refl _), List.take_length, readLoop_final]
    rfl

/-- C9: in every run whose open call succeeded, the handle is closed exactly
once and that is the last call of the run, and the calls keep the resource
discipline of `Resources.step` and end with nothing held: a mapped region is
released only after a digest is finalised and before the handle is closed, a
buffer is freed before the handle is closed, and no region or buffer is
acquired while a region or buffer exists. -/
theorem resources_released (pf : Platform) (argv : List String) (w : World) (r : Run)
    (hrun : main pf argv w = some r) (hopened : Event.openFile true ∈ r.trace) :
    r.trace.count Event.close = 1 ∧ r.trace.getLast? = some Event.close ∧
    releasesAll r.trace = true := by
  by_cases hargs : argv.length = 2
  swap
  · rw [main_usage pf argv w hargs] at hrun
    obtain rfl := Option.some.inj hrun
    simp at hopened
  obtain ⟨a0, path, rfl⟩ := argv_two argv hargs
  rcases main_cases pf a0 path w with h | h | h | h | h | h | h
  · rw [h.2] at hrun
    obtain rfl := Option.some.inj hrun
    simp at hopened
  · rw [h.2.2] at hrun
    obtain rfl := Option.some.inj hrun
    exact ⟨rfl, rfl, rfl⟩
  · rw [h.2.2] at hrun
    obtain rfl := Option.some.inj hrun
    exact ⟨rfl, rfl, rfl⟩
  · obtain ⟨s, -, -, -, -, -, h⟩ := h
    rw [h] at hrun
    exact absurd hrun (by simp)
  · obtain ⟨s, -, -, -, -, -, h⟩ := h
    rw [h] at hrun
    obtain rfl := Option.some.inj hrun
    exact mappedTrace_released pf _
  · obtain ⟨s, -, -, -, -, -, h⟩ := h
    rw [h] at hrun
    obtain rfl := Option.some.inj hrun
    exact allocFailed_released pf w s
  · obtain ⟨s, -, -, -, -, -, h⟩ := h
    rw [h] at hrun
    obtain rfl := Option.some.inj hrun
    exact bufferedTrace_released pf w s

theorem resources_released_witness :
    main .posix ["thash", "f"] tornWorld = some tornRun ∧
    Event.openFile true ∈ tornRun.trace ∧
    tornRun.trace.count Event.close = 1 ∧ tornRun.trace.getLast? = some Event.close ∧
    releasesAll tornRun.trace = true :=
  ⟨tornWorld_run, by decide,
    resources_released .posix ["thash", "f"] tornWorld tornRun tornWorld_run (by decide)⟩

/-- C10 as stated fails: the size query reports 10485761 bytes, the mapping
succeeds, and the file has since been cut down so that only one page is
readable; `compute_hash` reads past it, the process is killed, and `main` never
returns: no status 0 or 1, and nothing on either stream. -/
theorem truncated_mapping_never_returns :
    overRead .posix truncatedWorld = true ∧
    main .posix ["thash", "f"] truncatedWorld = none :=
  ⟨(overRead_iff .posix truncatedWorld 10485761 rfl rfl).mpr
      ⟨by decide, rfl, truncatedWorld_short⟩,
    main_killed .posix "thash" "f" truncatedWorld 10485761 rfl rfl (by decide) rfl
      truncatedWorld_short⟩

/-- C10 amended: a run never returns exactly when it has two arguments and
maps the file but finds fewer bytes readable than the size reported
(`overRead`); every other run returns, with 0 or 1.  A run that returns
returns 0 exactly when standard output holds one complete digest line for the
path argument, and 1 exactly when standard output is empty and standard error
is not.  With an argument count other than 2 it returns 1 with the usage
message and makes no call. -/
theorem exit_status_agrees (pf : Platform) (argv : List String) (w : World) :
    (argv.length = 2 ∧ overRead pf w = true → main pf argv w = none) ∧
    (¬ (argv.length = 2 ∧ overRead pf w = true) →
      ∃ r, main pf argv w = some r ∧
        (r.exit = 0 ∨ r.exit = 1) ∧
        (r.exit = 0 ↔ isDigestLine (argv.getD 1 "") r.stdout = true) ∧
        (r.exit = 1 ↔ (r.stdout = "" ∧ r.stderr ≠ "")) ∧
        (argv.length ≠ 2 →
          r = ⟨1, "", "Usage: " ++ argv.headD "(null)" ++ " <file>\n", []⟩)) := by
  constructor
  · intro h
    obtain ⟨a0, path, rfl⟩ := argv_two argv h.1
    exact main_overRead pf a0 path w h.2
  intro hsafe
  have fail : ∀ (err : String) (t : List Event), err ≠ "" →
      ((⟨1, "", err, t⟩ : Run).exit = 0 ∨ (⟨1, "", err, t⟩ : Run).exit = 1) ∧
      ((⟨1, "", err, t⟩ : Run).exit = 0
        ↔ isDigestLine (argv.getD 1 "") (⟨1, "", err, t⟩ : Run).stdout = true) ∧
      ((⟨1, "", err, t⟩ : Run).exit = 1
        ↔ ((⟨1, "", err, t⟩ : Run).stdout = "" ∧ (⟨1, "", err, t⟩ : Run).stderr ≠ "")) := by
    intro err t herr
    simp [isDigestLine_empty, herr]
  have ok : ∀ (hash : List Byte) (t : List Event), hash.length = 32 →
      ((⟨0, digestLine (argv.getD 1 "") hash, "", t⟩ : Run).exit = 0 ∨
        (⟨0, digestLine (argv.getD 1 "") hash, "", t⟩ : Run).exit = 1) ∧
      ((⟨0, digestLine (argv.getD 1 "") hash, "", t⟩ : Run).exit = 0
        ↔ isDigestLine (argv.getD 1 "")
            (⟨0, digestLine (argv.getD 1 "") hash, "", t⟩ : Run).stdout = true) ∧
      ((⟨0, digestLine (argv.getD 1 "") hash, "", t⟩ : Run).exit = 1
        ↔ ((⟨0, digestLine (argv.getD 1 "") hash, "", t⟩ : Run).stdout = "" ∧
            (⟨0, digestLine (argv.getD 1 "") hash, "", t⟩ : Run).stderr ≠ "")) := by
    intro hash t hlen
    simp [isDigestLine_digestLine _ _ hlen]
  by_cases hargs : argv.length = 2
  swap
  · refine ⟨_, main_usage pf argv w hargs, ?_⟩
    obtain ⟨f1, f2, f3⟩ := fail ("Usage: " ++ argv.headD "(null)" ++ " <file>\n") []
      (by
        intro h
        have := congrArg String.length h
        simp [String.length_append] at this
        exact absurd this.2 (by decide))
    exact ⟨f1, f2, f3, fun _ => rfl⟩
  obtain ⟨a0, path, rfl⟩ := argv_two argv hargs
  have hp : [a0, path].getD 1 "" = path := rfl
  rcases main_cases pf a0 path w with h | h | h | h | h | h | h
  · obtain ⟨f1, f2, f3⟩ := fail _ [.openFile false] (openDiagnostic_ne pf path w)
    exact ⟨_, h.2, f1, f2, f3, fun hn => absurd rfl hn⟩
  · obtain ⟨f1, f2, f3⟩ := fail _ [.openFile true, .fileSize false, .close]
      (sizeDiagnostic_ne pf w)
    exact ⟨_, h.2.2, f1, f2, f3, fun hn => absurd rfl hn⟩
  · obtain ⟨f1, f2, f3⟩ := fail "Empty file\n" [.openFile true, .fileSize true, .close]
      (by decide)
    exact ⟨_, h.2.2, f1, f2, f3, fun hn => absurd rfl hn⟩
  · obtain ⟨s, hopen, hs, hbig, hmap, hshort, -⟩ := h
    exact absurd ⟨hargs, (overRead_iff pf w s hopen hs).mpr ⟨hbig, hmap, hshort⟩⟩ hsafe
  · obtain ⟨s, -, -, -, -, -, h⟩ := h
    obtain ⟨f1, f2, f3⟩ := ok (sha256 (w.content.take (toSizeT s))) (mappedTrace pf (toSizeT s))
      (sha256_length _)
    rw [hp] at f1 f2 f3
    exact ⟨_, h, f1, f2, f3, fun hn => absurd rfl hn⟩
  · obtain ⟨s, -, -, -, -, -, h⟩ := h
    obtain ⟨f1, f2, f3⟩ := fail "Memory allocation failed\n"
      (bufferedPre pf w s ++ [.alloc false, .close]) (by decide)
    exact ⟨_, h, f1, f2, f3, fun hn => absurd rfl hn⟩
  · obtain ⟨s, -, -, -, -, -, h⟩ := h
    obtain ⟨f1, f2, f3⟩ := ok (sha256 (delivered w.reads)) (bufferedTrace pf w s)
      (sha256_length _)
    rw [hp] at f1 f2 f3
    exact ⟨_, h, f1, f2, f3, fun hn => absurd rfl hn⟩

end Thash
